import Mathlib

/-!
Verification of the NomifactoryCEU_Calculator production-chain planner.

The repository contains two implementations of the planning core:
- the current core in `src/core/oc.py` (`compute_overclock`) and
  `src/core/plan.py` (`Planner`), and
- the legacy single-file version in `nomi_calc.py`
  (`OverclockingRules.apply`, `Planner._solve_node`, ...).

Both are embedded below.  Python `float` values are modelled as exact
rationals (`ℚ`), Python `int` as `ℤ`/`ℕ`, Python dicts as association
lists in insertion order, and raised exceptions as `Except` errors.
-/

set_option maxRecDepth 4000

/-- The eleven named voltage tiers used by Nomifactory/GTCE
(`Tier` in `src/core/models.py`, `VOLTAGE_BY_TIER` keys). -/
inductive Tier where
  | ULV | LV | MV | HV | EV | IV | LuV | ZPM | UV | UHV | UEV
  deriving DecidableEq

/-- Display name of a tier, used by the summary key. -/
def tierName : Tier → String
  | .ULV => "ULV"
  | .LV => "LV"
  | .MV => "MV"
  | .HV => "HV"
  | .EV => "EV"
  | .IV => "IV"
  | .LuV => "LuV"
  | .ZPM => "ZPM"
  | .UV => "UV"
  | .UHV => "UHV"
  | .UEV => "UEV"

/-- `VOLTAGE_BY_TIER` from `src/core/oc.py` (identical in `nomi_calc.py`). -/
def VOLTAGE_BY_TIER : Tier → ℕ
  | .ULV => 8
  | .LV => 32
  | .MV => 128
  | .HV => 512
  | .EV => 2048
  | .IV => 8192
  | .LuV => 32768
  | .ZPM => 131072
  | .UV => 524288
  | .UHV => 2097152
  | .UEV => 8388608

/-- `TICK_S = 1.0 / 20.0`: the length of one time-quantum in seconds. -/
def TICK_S : ℚ := 1 / 20

/-- Fuel-driven base-4 integer logarithm: for `1 ≤ n ≤ fuel`,
`log4Aux fuel n` is the largest `k` with `4 ^ k ≤ n`. -/
def log4Aux : ℕ → ℕ → ℕ
  | 0, _ => 0
  | fuel + 1, n => if 4 ≤ n then log4Aux fuel (n / 4) + 1 else 0

/-- Exact value of Python's `math.floor(math.log(q, 4))` for a rational
`q ≥ 1`: floors of the base-4 logarithm agree between `q` and `⌊q⌋₊`
because powers of 4 are integers. -/
def log4floorQ (q : ℚ) : ℕ := log4Aux ⌊q⌋₊ ⌊q⌋₊

/-- Result record of `compute_overclock` (`OCResult` in `src/core/oc.py`). -/
structure OCResult where
  overclocks : ℕ
  ticks : ℤ
  seconds : ℚ
  eut : ℚ
  deriving DecidableEq

/-- Embeds `compute_overclock` from `src/core/oc.py`.  The float duration
`2.8` is the rational `14/5`; `math.ceil` is `Int.ceil`; the Python
`n = max(0, n)` is absorbed by `ℕ`. -/
def computeOverclock (base_time_s base_eut : ℚ) (tier : Tier) : OCResult :=
  let mv : ℚ := (VOLTAGE_BY_TIER tier : ℚ)
  if base_eut ≤ 0 then
    { overclocks := 0, ticks := max 1 ⌈base_time_s / TICK_S⌉,
      seconds := max TICK_S base_time_s, eut := 0 }
  else if mv < base_eut then
    -- cannot run at this tier; treat as no OC but still round to ticks
    let ticks : ℤ := max 1 ⌈base_time_s / TICK_S⌉
    { overclocks := 0, ticks := ticks, seconds := (ticks : ℚ) * TICK_S,
      eut := base_eut }
  else
    let n : ℕ := log4floorQ (max (mv / base_eut) 1)
    let factor : ℚ := if base_eut ≤ 16 then 2 else 14 / 5
    let base_ticks : ℤ := max 1 ⌈base_time_s / TICK_S⌉
    let ticks_f : ℚ := (base_ticks : ℚ) / (if 0 < n then factor ^ n else 1)
    let ticks : ℤ := max 1 ⌈ticks_f⌉
    { overclocks := n, ticks := ticks, seconds := (ticks : ℚ) * TICK_S,
      eut := base_eut * 4 ^ n }

/-- Result record of the legacy `OverclockingRules.apply`
(`OverclockResult` in `nomi_calc.py`). -/
structure OverclockResult where
  ticks : ℤ
  seconds : ℚ
  eut : ℚ
  overclocks : ℕ
  deriving DecidableEq

/-- Tick count recomputed inside the legacy safety loop for a given
overclock count `n` (body of the `while` in `OverclockingRules.apply`). -/
def ocTicks (base_ticks : ℤ) (factor : ℚ) (le16 : Bool) (n : ℕ) : ℤ :=
  let tf : ℚ := (base_ticks : ℚ) / (if 0 < n then factor ^ n else 1)
  if le16 then max 1 ⌊tf⌋ else max 1 ⌈tf⌉

/-- The legacy safety-correction loop: while the tick count is below 1 and
overclocks remain, drop one overclock and recompute
(`while new_ticks < 1 and n > 0` in `OverclockingRules.apply`). -/
def ocLoop (base_ticks : ℤ) (factor : ℚ) (le16 : Bool) : ℕ → ℤ → ℕ × ℤ
  | 0, t => (0, t)
  | n + 1, t =>
    if t < 1 then ocLoop base_ticks factor le16 n (ocTicks base_ticks factor le16 n)
    else (n + 1, t)

/-- Embeds the legacy `OverclockingRules.apply` from `nomi_calc.py`
(constructed for a tier; raising `ValueError` becomes `Except.error`). -/
def applyOC (tier : Tier) (base_ticks : ℤ) (base_eut : Option ℚ) :
    Except String OverclockResult :=
  let mv : ℚ := (VOLTAGE_BY_TIER tier : ℚ)
  match base_eut with
  | none =>
    .ok { ticks := max base_ticks 1, seconds := (max base_ticks 1 : ℤ) * TICK_S,
          eut := 0, overclocks := 0 }
  | some p =>
    if mv < p then
      .error "Recipe base EU/t exceeds machine tier voltage"
    else
      let n : ℕ := if 0 < p then log4floorQ (mv / p) else 0
      let factor : ℚ := if p ≤ 16 then 2 else 14 / 5
      let ticks_f : ℚ := (base_ticks : ℚ) / (if 0 < n then factor ^ n else 1)
      let new_ticks : ℤ :=
        if p ≤ 16 then max 1 ⌊ticks_f⌋ else max 1 ⌈ticks_f⌉
      let r := ocLoop base_ticks factor (decide (p ≤ 16)) n new_ticks
      .ok { ticks := r.2, seconds := (r.2 : ℚ) * TICK_S,
            eut := p * 4 ^ r.1, overclocks := r.1 }

/-- Recipe record from `src/core/models.py` (pydantic `Recipe`); `inputs`
and `outputs` are dicts in insertion order, modelled as association lists. -/
structure Recipe where
  id : String
  machine : String
  time_s : ℚ
  inputs : List (String × ℚ)
  outputs : List (String × ℚ)
  base_eut : Option ℚ
  base_voltage : Option Tier
  gt_recipe : Bool
  deriving DecidableEq

/-- Recipe catalog from `src/core/models.py` (`RecipeBook`): a recipe list
plus the output-item to active-recipe-id mapping. -/
structure RecipeBook where
  recipes : List Recipe
  active_by_output : List (String × String)
  deriving DecidableEq

/-- `RecipeBook.get_active_recipe`: look up the active recipe id for an
output item (a falsy id, i.e. the empty string, counts as absent) and then
scan the recipe list for it. -/
def RecipeBook.getActiveRecipe (book : RecipeBook) (item : String) : Option Recipe :=
  match book.active_by_output.lookup item with
  | none => none
  | some rid => if rid = "" then none else book.recipes.find? (fun r => r.id = rid)

/-- Scalar fields of a plan node (`PlanNode` in `src/core/models.py`,
minus the child list). -/
structure NodeData where
  item : String
  item_display : Option String
  item_rate_per_s : ℚ
  recipe_id : String
  machine : String
  machine_tier : Tier
  machines_needed : ℤ
  per_machine_ops_per_s : ℚ
  effective_time_s : ℚ
  effective_eut : ℚ
  overclocks : ℕ
  inputs : List (String × ℚ)
  deriving DecidableEq

/-- A resolved plan node: its scalar data plus one child per recipe input. -/
inductive PlanNode where
  | mk (data : NodeData) (children : List PlanNode)

/-- Scalar data of a plan node. -/
def PlanNode.data : PlanNode → NodeData
  | .mk d _ => d

/-- Children of a plan node. -/
def PlanNode.children : PlanNode → List PlanNode
  | .mk _ c => c

/-- The raw-input node built by `Planner._solve` when no active recipe
exists: machine `RAW`, zero machines/power/duration, default tier. -/
def rawNode (im : List (String × String)) (dt : Tier) (item : String) (rate : ℚ) : PlanNode :=
  .mk
    { item := item, item_display := im.lookup item, item_rate_per_s := rate,
      recipe_id := "<raw>", machine := "RAW", machine_tier := dt,
      machines_needed := 0, per_machine_ops_per_s := 0, effective_time_s := 0,
      effective_eut := 0, overclocks := 0, inputs := [] }
    []

/-- `Planner._primary_output_amount` from `src/core/plan.py`: the output
quantity listed for `item`, falling back to the first listed output, and
erroring only when the recipe has no outputs at all. -/
inductive PlanError where
  | cycle (path : List String)
  | noOutputs (rid : String)
  | outOfFuel
  deriving DecidableEq

/-- `Planner._primary_output_amount` (core resolver, `src/core/plan.py`). -/
def primaryOutputAmount (r : Recipe) (item : String) : Except PlanError ℚ :=
  match r.outputs.lookup item with
  | some amt => .ok amt
  | none =>
    match r.outputs with
    | [] => .error (.noOutputs r.id)
    | p :: _ => .ok p.2

/-- `Planner._tier_for_node` from `src/core/plan.py`: per-item override
else default, then raised to the recipe's `base_voltage` when that has a
strictly larger capacity (comparison by capacity, not name). -/
def tierForNode (r : Recipe) (dt : Tier) (ov : List (String × Tier)) (item : String) : Tier :=
  let tier := (ov.lookup item).getD dt
  match r.base_voltage with
  | none => tier
  | some bv => if VOLTAGE_BY_TIER tier < VOLTAGE_BY_TIER bv then bv else tier

/-- The overclock branch of `Planner._solve`: effective duration, power
and overclock count; overclocking applies only when `base_eut` is present
and `gt_recipe` is set. -/
def effTriple (r : Recipe) (tier : Tier) : ℚ × ℚ × ℕ :=
  match r.base_eut with
  | some be =>
    if r.gt_recipe then
      let oc := computeOverclock r.time_s be tier
      (oc.seconds, oc.eut, oc.overclocks)
    else (r.time_s, 0, 0)
  | none => (r.time_s, 0, 0)

/-- The `1e-12` guard of `Planner._solve` line 75. -/
def opsEps : ℚ := 1 / 1000000000000

/-- Error-propagating map, used for resolving the child list in order. -/
def mapME {α β ε : Type} (f : α → Except ε β) : List α → Except ε (List β)
  | [] => .ok []
  | a :: as =>
    match f a with
    | .error e => .error e
    | .ok b =>
      match mapME f as with
      | .error e => .error e
      | .ok bs => .ok (b :: bs)

/-- Embeds `Planner._solve` from `src/core/plan.py`.  The recursion is
driven by explicit fuel (the Python recursion terminates because the
ancestor path grows within a finite catalog); `fuel = 0` yields a
dedicated error.  `im` is the planner's `items_map` display lookup. -/
def solve (book : RecipeBook) (im : List (String × String)) (dt : Tier)
    (ov : List (String × Tier)) :
    ℕ → String → ℚ → List String → Except PlanError PlanNode
  | 0, _, _, _ => .error .outOfFuel
  | fuel + 1, item, rate, path =>
    if item ∈ path then .error (.cycle (path ++ [item]))
    else
      match book.getActiveRecipe item with
      | none => .ok (rawNode im dt item rate)
      | some r =>
        let tier := tierForNode r dt ov item
        match primaryOutputAmount r item with
        | .error e => .error e
        | .ok out_amt =>
          let e := effTriple r tier
          let ops : ℚ := 1 / max e.1 opsEps
          let req : ℚ := rate / out_amt
          let machines : ℤ := ⌈req / ops⌉
          let inputs_rates := r.inputs.map (fun p => (p.1, req * p.2))
          match mapME (fun p => solve book im dt ov fuel p.1 p.2 (path ++ [item])) inputs_rates with
          | .error e => .error e
          | .ok children =>
            .ok (.mk
              { item := item, item_display := im.lookup item,
                item_rate_per_s := rate, recipe_id := r.id, machine := r.machine,
                machine_tier := tier, machines_needed := machines,
                per_machine_ops_per_s := ops, effective_time_s := e.1,
                effective_eut := e.2.1, overclocks := e.2.2,
                inputs := inputs_rates }
              children)

mutual

/-- Every node of a plan tree, root first, children depth-first in order
(each repeated subtree occurrence contributes all its nodes again). -/
def allNodes : PlanNode → List PlanNode
  | .mk d c => .mk d c :: allNodesL c

/-- Every node of a forest, depth first. -/
def allNodesL : List PlanNode → List PlanNode
  | [] => []
  | n :: ns => allNodes n ++ allNodesL ns

end

/-- The summary key of `Planner._summary`: `f"{machine} [{tier}]"`. -/
def summaryKey (d : NodeData) : String :=
  d.machine ++ " [" ++ tierName d.machine_tier ++ "]"

/-- One node's update of the running aggregate in `Planner._summary`'s
`walk`: non-raw nodes with positive machine count add their machines and
`machines × effective_eut` under their key.  The `defaultdict` is
modelled as a total function that is `(0, 0)` off its support. -/
def walkStep (agg : String → ℚ × ℚ) (d : NodeData) : String → ℚ × ℚ :=
  if d.machine ≠ "RAW" ∧ 0 < d.machines_needed then
    fun k =>
      if k = summaryKey d then
        ((agg k).1 + (d.machines_needed : ℚ),
         (agg k).2 + (d.machines_needed : ℚ) * d.effective_eut)
      else agg k
  else agg

mutual

/-- The depth-first accumulation of `Planner._summary`'s `walk`. -/
def walkAgg (agg : String → ℚ × ℚ) : PlanNode → (String → ℚ × ℚ)
  | .mk d c => walkAggL (walkStep agg d) c

/-- `walk` over a child list, threading the aggregate left to right. -/
def walkAggL (agg : String → ℚ × ℚ) : List PlanNode → (String → ℚ × ℚ)
  | [] => agg
  | n :: ns => walkAggL (walkAgg agg n) ns

end

/-- `Planner._summary`: run the walk from an empty aggregate, then round
the machine count up to an integer once, at the end. -/
def summaryOf (root : PlanNode) (k : String) : ℤ × ℚ :=
  (⌈(walkAgg (fun _ => (0, 0)) root k).1⌉, (walkAgg (fun _ => (0, 0)) root k).2)

/-- A single node's contribution to the summary under key `k`. -/
def contrib (n : PlanNode) (k : String) : ℚ × ℚ :=
  if n.data.machine ≠ "RAW" ∧ 0 < n.data.machines_needed ∧ summaryKey n.data = k then
    ((n.data.machines_needed : ℚ), (n.data.machines_needed : ℚ) * n.data.effective_eut)
  else (0, 0)

/-- A catalog whose per-operation quantities are all positive (the data
contract of §3 of the spec: quantities `> 0`). -/
def PositiveBook (book : RecipeBook) : Prop :=
  ∀ r ∈ book.recipes, (∀ p ∈ r.inputs, 0 < p.2) ∧ (∀ p ∈ r.outputs, 0 < p.2)

/-- What `Planner._solve` guarantees for each node it builds: either the
raw-input shape, or the field equations of the recipe branch. -/
def NodeOK (book : RecipeBook) (im : List (String × String)) (dt : Tier)
    (ov : List (String × Tier)) (n : PlanNode) : Prop :=
  (book.getActiveRecipe n.data.item = none ∧
    n = rawNode im dt n.data.item n.data.item_rate_per_s) ∨
  (∃ r out_amt,
    book.getActiveRecipe n.data.item = some r ∧
    primaryOutputAmount r n.data.item = .ok out_amt ∧
    n.data.recipe_id = r.id ∧
    n.data.machine = r.machine ∧
    n.data.machine_tier = tierForNode r dt ov n.data.item ∧
    n.data.effective_time_s = (effTriple r n.data.machine_tier).1 ∧
    n.data.effective_eut = (effTriple r n.data.machine_tier).2.1 ∧
    n.data.overclocks = (effTriple r n.data.machine_tier).2.2 ∧
    n.data.per_machine_ops_per_s = 1 / max n.data.effective_time_s opsEps ∧
    n.data.machines_needed =
      ⌈(n.data.item_rate_per_s / out_amt) / n.data.per_machine_ops_per_s⌉ ∧
    n.data.inputs = r.inputs.map (fun p => (p.1, (n.data.item_rate_per_s / out_amt) * p.2)))

/-- Legacy `Recipe` dataclass from `nomi_calc.py` (no `base_voltage`, no
`gt_recipe`). -/
structure LegacyRecipe where
  id : String
  machine : String
  time_s : ℚ
  inputs : List (String × ℚ)
  outputs : List (String × ℚ)
  base_eut : Option ℚ
  deriving DecidableEq

/-- Legacy `Planner._choose_output_amount` from `nomi_calc.py`: errors
when the item is absent from the outputs (or its amount is falsy, i.e. 0). -/
def chooseOutputAmount (r : LegacyRecipe) (item : String) : Except String ℚ :=
  match r.outputs.lookup item with
  | none => .error "Recipe does not output item"
  | some amt => if amt = 0 then .error "Recipe does not output item" else .ok amt

/-- The empty catalog: every item is a raw input. -/
def emptyBook : RecipeBook := ⟨[], []⟩

/-- A one-recipe catalog whose recipe is overclockable at LV
(base power 8 EU/t, 1 s base time). -/
def ocBook : RecipeBook :=
  ⟨[⟨"rA", "Electrolyzer", 1, [], [("A", 1)], some 8, none, true⟩], [("A", "rA")]⟩

/-- A one-recipe catalog whose recipe draws 10 EU/t, which exceeds the
ULV capacity of 8. -/
def exceedBook : RecipeBook :=
  ⟨[⟨"rA", "Mixer", 1, [], [("A", 1)], some 10, none, true⟩], [("A", "rA")]⟩

/-- A catalog whose active recipe for item `A` lists only `B` among its
outputs. -/
def fallbackBook : RecipeBook :=
  ⟨[⟨"rA", "Mixer", 1, [], [("B", 2)], none, none, true⟩], [("A", "rA")]⟩

/-- An acyclic diamond: `X` needs `Y` and `Z`, each of which needs the
same raw item `W` in two unrelated sibling branches. -/
def diamondBook : RecipeBook :=
  ⟨[⟨"rX", "Assembler", 1, [("Y", 1), ("Z", 1)], [("X", 1)], none, none, true⟩,
    ⟨"rY", "Macerator", 1, [("W", 1)], [("Y", 1)], none, none, true⟩,
    ⟨"rZ", "Compressor", 1, [("W", 1)], [("Z", 1)], none, none, true⟩],
   [("X", "rX"), ("Y", "rY"), ("Z", "rZ")]⟩

/-- A transitively cyclic catalog: `A`'s recipe consumes `B`, whose
recipe consumes `A`. -/
def loopBook : RecipeBook :=
  ⟨[⟨"rA", "Mixer", 1, [("B", 1)], [("A", 1)], none, none, true⟩,
    ⟨"rB", "Mixer", 1, [("A", 1)], [("B", 1)], none, none, true⟩],
   [("A", "rA"), ("B", "rB")]⟩

/-- A simple positive catalog without overclocking (1 s recipe, one
output per operation). -/
def plainBook : RecipeBook :=
  ⟨[⟨"rA", "Mixer", 1, [], [("A", 1)], none, none, true⟩], [("A", "rA")]⟩

/-- Whether resolution produced a plan (`Except.ok`). -/
def isOkE {ε α : Type} : Except ε α → Bool
  | .ok _ => true
  | .error _ => false

/-- A one-recipe catalog whose recipe declares a minimum voltage of HV. -/
def voltBook : RecipeBook :=
  ⟨[⟨"rA", "Mixer", 1, [], [("A", 1)], none, some .HV, true⟩], [("A", "rA")]⟩

/-- The node `solve` builds for `plainBook`'s item `A` at rate 1 and LV. -/
def nodeA : PlanNode :=
  .mk
    { item := "A", item_display := none, item_rate_per_s := 1, recipe_id := "rA",
      machine := "Mixer", machine_tier := .LV, machines_needed := 1,
      per_machine_ops_per_s := 1, effective_time_s := 1, effective_eut := 0,
      overclocks := 0, inputs := [] }
    []

/-- The node `solve` builds for `ocBook`'s item `A` at rate 1 and LV: one
overclock halves the 20-tick duration and quadruples the 8 EU/t draw. -/
def nodeOC : PlanNode :=
  .mk
    { item := "A", item_display := none, item_rate_per_s := 1, recipe_id := "rA",
      machine := "Electrolyzer", machine_tier := .LV, machines_needed := 1,
      per_machine_ops_per_s := 2, effective_time_s := 1 / 2, effective_eut := 32,
      overclocks := 1, inputs := [] }
    []

/-- The node `solve` builds for `voltBook`'s item `A` at rate 1 when the
default tier LV is raised to the recipe's declared minimum HV. -/
def nodeVolt : PlanNode :=
  .mk
    { item := "A", item_display := none, item_rate_per_s := 1, recipe_id := "rA",
      machine := "Mixer", machine_tier := .HV, machines_needed := 1,
      per_machine_ops_per_s := 1, effective_time_s := 1, effective_eut := 0,
      overclocks := 0, inputs := [] }
    []

/-- A legacy recipe that outputs only `B` (used against
`_choose_output_amount`). -/
def legacyB : LegacyRecipe := ⟨"rA", "Mixer", 1, [], [("B", 2)], none⟩

/-- Legacy `RecipeBook` from `nomi_calc.py`: recipes by id plus the
output-item to active-recipe-id mapping. -/
structure LegacyBook where
  recipes : List LegacyRecipe
  active_by_output : List (String × String)
  deriving DecidableEq

/-- Legacy `RecipeBook.get_active_for`: a falsy (empty) recipe id counts
as absent, otherwise the recipe with that id is looked up. -/
def LegacyBook.getActiveFor (book : LegacyBook) (item : String) : Option LegacyRecipe :=
  match book.active_by_output.lookup item with
  | none => none
  | some rid => if rid = "" then none else book.recipes.find? (fun r => r.id = rid)

/-- Scalar fields of the legacy `PlanNode` dataclass in `nomi_calc.py`
(no display name; the tier is the plan-wide tier). -/
structure LegacyNodeData where
  item : String
  item_rate_per_s : ℚ
  recipe_id : String
  machine : String
  machine_tier : Tier
  machines_needed : ℤ
  per_machine_ops_per_s : ℚ
  effective_time_s : ℚ
  effective_eut : ℚ
  overclocks : ℕ
  inputs : List (String × ℚ)

/-- A legacy plan node: scalar data plus one child per recipe input. -/
inductive LegacyNode where
  | mk (data : LegacyNodeData) (children : List LegacyNode)

/-- The legacy raw-input node built by `Planner._solve_node` when no
active recipe exists (`recipe_id` `<none>`, machine `<raw input>`). -/
def rawLegacyNode (tier : Tier) (item : String) (rate : ℚ) : LegacyNode :=
  .mk
    { item := item, item_rate_per_s := rate, recipe_id := "<none>",
      machine := "<raw input>", machine_tier := tier, machines_needed := 0,
      per_machine_ops_per_s := 0, effective_time_s := 0, effective_eut := 0,
      overclocks := 0, inputs := [] }
    []

/-- Python's `round` (banker's rounding, half to even) on a rational. -/
def roundHalfEven (q : ℚ) : ℤ :=
  if q - ⌊q⌋ = 1 / 2 then (if 2 ∣ ⌊q⌋ then ⌊q⌋ else ⌊q⌋ + 1) else round q

/-- The legacy child loop of `Planner._solve_node`: children are resolved
left to right and the mutable `visited` set is threaded through them (it
is shared across sibling calls, unlike the core's per-path list). -/
def childFold (f : String → ℚ → List String → Except String (LegacyNode × List String)) :
    List (String × ℚ) → List String → Except String (List LegacyNode × List String)
  | [], visited => .ok ([], visited)
  | (i, rt) :: rest, visited =>
    match f i rt visited with
    | .error e => .error e
    | .ok (c, v2) =>
      match childFold f rest v2 with
      | .error e => .error e
      | .ok (cs, v3) => .ok (c :: cs, v3)

/-- Embeds the legacy `Planner._solve_node` from `nomi_calc.py`.  The
shared mutable `visited` set is threaded explicitly and also returned.
Note the raw-input branch returns early WITHOUT removing `item` from
`visited` (`visited.remove(item)` runs only in the recipe branch), and
the cycle error message names only the item, not the path.  Recursion is
fuel-driven as in the core embedding. -/
def solveLegacy (book : LegacyBook) :
    ℕ → String → ℚ → Tier → List String → Except String (LegacyNode × List String)
  | 0, _, _, _, _ => .error "fuel exhausted"
  | fuel + 1, item, rate, tier, visited =>
    if item ∈ visited then .error ("Cycle detected while resolving " ++ item)
    else
      let visited := item :: visited
      match book.getActiveFor item with
      | none => .ok (rawLegacyNode tier item rate, visited)
      | some r =>
        match chooseOutputAmount r item with
        | .error e => .error e
        | .ok out_per_op =>
          let base_ticks : ℤ := max 1 (roundHalfEven (r.time_s / TICK_S))
          let effE : Except String (ℚ × ℚ × ℕ) :=
            match r.base_eut with
            | some be =>
              match applyOC tier base_ticks (some be) with
              | .error e => .error e
              | .ok oc => .ok (oc.seconds, oc.eut, oc.overclocks)
            | none => .ok (((max base_ticks 1 : ℤ) : ℚ) * TICK_S, 0, 0)
          match effE with
          | .error e => .error e
          | .ok e =>
            let ops : ℚ := 1 / e.1
            let req : ℚ := rate / out_per_op
            let machines : ℤ := ⌈req / ops⌉
            let inputs_rates := r.inputs.map (fun p => (p.1, req * p.2))
            match childFold (fun i rt v => solveLegacy book fuel i rt tier v)
                inputs_rates visited with
            | .error e => .error e
            | .ok (children, v2) =>
              .ok (.mk
                { item := item, item_rate_per_s := rate, recipe_id := r.id,
                  machine := r.machine, machine_tier := tier,
                  machines_needed := machines, per_machine_ops_per_s := ops,
                  effective_time_s := e.1, effective_eut := e.2.1,
                  overclocks := e.2.2, inputs := inputs_rates } children,
                v2.erase item)

/-- The same acyclic diamond as `diamondBook`, in the legacy catalog
shape: `X` needs `Y` and `Z`, each of which needs the raw item `W`. -/
def legacyDiamondBook : LegacyBook :=
  ⟨[⟨"rX", "Assembler", 1, [("Y", 1), ("Z", 1)], [("X", 1)], none⟩,
    ⟨"rY", "Macerator", 1, [("W", 1)], [("Y", 1)], none⟩,
    ⟨"rZ", "Compressor", 1, [("W", 1)], [("Z", 1)], none⟩],
   [("X", "rX"), ("Y", "rY"), ("Z", "rZ")]⟩

theorem lookup_mem {β : Type} {l : List (String × β)} {k : String} {v : β}
    (h : l.lookup k = some v) : (k, v) ∈ l := by
  induction l with
  | nil => simp [List.lookup] at h
  | cons p ps ih =>
    obtain ⟨a, b⟩ := p
    simp only [List.lookup] at h
    cases hk : (k == a) with
    | true =>
      rw [hk] at h
      simp only [Option.some.injEq] at h
      subst h
      exact (beq_iff_eq.mp hk) ▸ List.mem_cons_self _ _
    | false =>
      rw [hk] at h
      exact List.mem_cons_of_mem _ (ih h)

theorem mapME_ok_mem {α β ε : Type} {f : α → Except ε β} :
    ∀ {l : List α} {l' : List β}, mapME f l = .ok l' →
      ∀ b ∈ l', ∃ a ∈ l, f a = .ok b := by
  intro l
  induction l with
  | nil =>
    intro l' h b hb
    simp only [mapME, Except.ok.injEq] at h
    subst h
    simp at hb
  | cons a as ih =>
    intro l' h b hb
    simp only [mapME] at h
    cases hfa : f a with
    | error e => rw [hfa] at h; cases h
    | ok b0 =>
      rw [hfa] at h
      cases hrec : mapME f as with
      | error e => rw [hrec] at h; cases h
      | ok bs =>
        rw [hrec] at h
        simp only [Except.ok.injEq] at h
        subst h
        rcases List.mem_cons.mp hb with hb | hb
        · exact ⟨a, List.mem_cons_self _ _, hb ▸ hfa⟩
        · obtain ⟨a', ha', hfa'⟩ := ih hrec b hb
          exact ⟨a', List.mem_cons_of_mem _ ha', hfa'⟩

theorem log4Aux_le_iff :
    ∀ fuel n m : ℕ, n ≤ fuel → 0 < n → ((4 : ℕ) ^ m ≤ n ↔ m ≤ log4Aux fuel n) := by
  intro fuel
  induction fuel with
  | zero => intro n m h h0; omega
  | succ fuel ih =>
    intro n m hle h0
    simp only [log4Aux]
    by_cases h4 : 4 ≤ n
    · rw [if_pos h4]
      cases m with
      | zero => simpa using h0
      | succ m =>
        have h0' : 0 < n / 4 := Nat.div_pos h4 (by norm_num)
        have hlt : n / 4 < n := Nat.div_lt_self h0 (by norm_num)
        have hdiv : n / 4 ≤ fuel := by omega
        have step : (4 : ℕ) ^ (m + 1) ≤ n ↔ (4 : ℕ) ^ m ≤ n / 4 := by
          rw [pow_succ, ← Nat.le_div_iff_mul_le (by norm_num)]
        rw [step, ih (n / 4) m hdiv h0']
        omega
    · rw [if_neg h4]
      cases m with
      | zero => simpa using h0
      | succ m =>
        have hbig : (4 : ℕ) ≤ 4 ^ (m + 1) := by
          calc (4 : ℕ) = 4 ^ 1 := by norm_num
          _ ≤ 4 ^ (m + 1) := Nat.pow_le_pow_right (by norm_num) (by omega)
        constructor
        · intro h; omega
        · intro h; omega

theorem log4floorQ_le_iff {q : ℚ} (hq : 1 ≤ q) (m : ℕ) :
    ((4 : ℚ) ^ m ≤ q ↔ m ≤ log4floorQ q) := by
  have h0 : 0 < ⌊q⌋₊ := by
    have : (1 : ℕ) ≤ ⌊q⌋₊ := Nat.le_floor (by exact_mod_cast hq)
    omega
  rw [log4floorQ, ← log4Aux_le_iff ⌊q⌋₊ ⌊q⌋₊ m le_rfl h0]
  constructor
  · intro h
    refine Nat.le_floor ?_
    push_cast
    exact h
  · intro h
    have h2 : ((4 ^ m : ℕ) : ℚ) ≤ (⌊q⌋₊ : ℚ) := by exact_mod_cast h
    have h3 : (⌊q⌋₊ : ℚ) ≤ q := Nat.floor_le (le_trans zero_le_one hq)
    push_cast at h2
    linarith

theorem computeOverclock_spec {t p : ℚ} {tier : Tier} (hp : 0 < p)
    (hle : p ≤ (VOLTAGE_BY_TIER tier : ℚ)) :
    computeOverclock t p tier =
      { overclocks := log4floorQ ((VOLTAGE_BY_TIER tier : ℚ) / p),
        ticks := max 1 ⌈(max 1 ⌈t / TICK_S⌉ : ℤ) /
          (if 0 < log4floorQ ((VOLTAGE_BY_TIER tier : ℚ) / p) then
            (if p ≤ 16 then (2 : ℚ) else 14 / 5) ^
              log4floorQ ((VOLTAGE_BY_TIER tier : ℚ) / p)
          else 1)⌉,
        seconds := (max 1 ⌈(max 1 ⌈t / TICK_S⌉ : ℤ) /
          (if 0 < log4floorQ ((VOLTAGE_BY_TIER tier : ℚ) / p) then
            (if p ≤ 16 then (2 : ℚ) else 14 / 5) ^
              log4floorQ ((VOLTAGE_BY_TIER tier : ℚ) / p)
          else 1)⌉ : ℤ) * TICK_S,
        eut := p * 4 ^ log4floorQ ((VOLTAGE_BY_TIER tier : ℚ) / p) } := by
  have h1 : (1 : ℚ) ≤ (VOLTAGE_BY_TIER tier : ℚ) / p := (one_le_div hp).mpr hle
  unfold computeOverclock
  rw [if_neg (not_le.mpr hp), if_neg (not_lt.mpr hle)]
  simp only [max_eq_left h1]

/-- C1: for every tier and every base power `p` with `0 < p ≤` the tier's
capacity, `compute_overclock` returns the largest overclock count `n`
with `p * 4 ^ n ≤ capacity`, and effective power `p * 4 ^ n`. -/
theorem overclock_count_is_maximal (t p : ℚ) (tier : Tier) (hp : 0 < p)
    (hle : p ≤ (VOLTAGE_BY_TIER tier : ℚ)) :
    p * 4 ^ (computeOverclock t p tier).overclocks ≤ (VOLTAGE_BY_TIER tier : ℚ) ∧
    (∀ m : ℕ, p * 4 ^ m ≤ (VOLTAGE_BY_TIER tier : ℚ) →
      m ≤ (computeOverclock t p tier).overclocks) ∧
    (computeOverclock t p tier).eut = p * 4 ^ (computeOverclock t p tier).overclocks := by
  have hmv1 : (1 : ℚ) ≤ (VOLTAGE_BY_TIER tier : ℚ) / p := (one_le_div hp).mpr hle
  have key : ∀ m : ℕ,
      (p * 4 ^ m ≤ (VOLTAGE_BY_TIER tier : ℚ) ↔
        m ≤ log4floorQ ((VOLTAGE_BY_TIER tier : ℚ) / p)) := by
    intro m
    rw [← log4floorQ_le_iff hmv1 m, le_div_iff₀ hp, mul_comm]
  rw [computeOverclock_spec hp hle]
  exact ⟨(key _).mpr le_rfl, fun m hm => (key m).mp hm, rfl⟩

/-- Witness for C1 at the spec's concrete scenario: base power 16 at tier
HV (capacity 512), where the maximal count is 2. -/
theorem overclock_count_is_maximal_witness :
    (16 : ℚ) * 4 ^ (computeOverclock 1 16 Tier.HV).overclocks ≤ (VOLTAGE_BY_TIER Tier.HV : ℚ) ∧
    (∀ m : ℕ, (16 : ℚ) * 4 ^ m ≤ (VOLTAGE_BY_TIER Tier.HV : ℚ) →
      m ≤ (computeOverclock 1 16 Tier.HV).overclocks) ∧
    (computeOverclock 1 16 Tier.HV).eut = 16 * 4 ^ (computeOverclock 1 16 Tier.HV).overclocks :=
  overclock_count_is_maximal 1 16 Tier.HV (by norm_num)
    (by norm_num [VOLTAGE_BY_TIER])

theorem mem_allNodesL {x : PlanNode} :
    ∀ {l : List PlanNode}, x ∈ allNodesL l → ∃ n ∈ l, x ∈ allNodes n := by
  intro l
  induction l with
  | nil => intro h; rw [allNodesL] at h; cases h
  | cons n ns ih =>
    intro h
    rw [allNodesL] at h
    rcases List.mem_append.mp h with h | h
    · exact ⟨n, List.mem_cons_self _ _, h⟩
    · obtain ⟨m, hm, hx⟩ := ih h
      exact ⟨m, List.mem_cons_of_mem _ hm, hx⟩

theorem mem_allNodes_self (n : PlanNode) : n ∈ allNodes n := by
  cases n with
  | mk d c => rw [allNodes]; exact List.mem_cons_self _ _

theorem planNode_ind (P : PlanNode → Prop)
    (h : ∀ d c, (∀ x ∈ c, P x) → P (PlanNode.mk d c)) : ∀ n, P n
  | .mk d c => h d c (fun x hx => planNode_ind P h x)
termination_by n => sizeOf n
decreasing_by
  have := List.sizeOf_lt_of_mem hx
  simp only [PlanNode.mk.sizeOf_spec]
  omega

theorem solve_mem_ok {book : RecipeBook} {im : List (String × String)} {dt : Tier}
    {ov : List (String × Tier)} :
    ∀ fuel item rate path root,
      solve book im dt ov fuel item rate path = .ok root →
      ∀ n ∈ allNodes root, NodeOK book im dt ov n := by
  intro fuel
  induction fuel with
  | zero =>
    intro item rate path root h
    simp [solve] at h
  | succ fuel ih =>
    intro item rate path root h n hn
    rw [solve] at h
    by_cases hcy : item ∈ path
    · rw [if_pos hcy] at h; cases h
    rw [if_neg hcy] at h
    cases hact : book.getActiveRecipe item with
    | none =>
      simp only [hact] at h
      simp only [Except.ok.injEq] at h
      subst h
      rw [rawNode] at hn
      rw [allNodes] at hn
      rw [allNodesL] at hn
      rcases List.mem_cons.mp hn with rfl | hn
      · left
        refine ⟨?_, ?_⟩
        · simpa [PlanNode.data] using hact
        · simp [rawNode, PlanNode.data]
      · cases hn
    | some r =>
      simp only [hact] at h
      cases hout : primaryOutputAmount r item with
      | error e => simp only [hout] at h; exact (Except.noConfusion h)
      | ok out_amt =>
        simp only [hout] at h
        cases hch : mapME
            (fun p => solve book im dt ov fuel p.1 p.2 (path ++ [item]))
            (r.inputs.map (fun p => (p.1, rate / out_amt * p.2))) with
        | error e => simp only [hch] at h; exact (Except.noConfusion h)
        | ok children =>
          simp only [hch, Except.ok.injEq] at h
          subst h
          rw [allNodes] at hn
          rcases List.mem_cons.mp hn with rfl | hn
          · right
            refine ⟨r, out_amt, ?_, ?_, rfl, rfl, rfl, rfl, rfl, rfl, rfl, rfl, rfl⟩
            · simpa [PlanNode.data] using hact
            · simpa [PlanNode.data] using hout
          · obtain ⟨c, hc, hnc⟩ := mem_allNodesL hn
            obtain ⟨p, _, hsol⟩ := mapME_ok_mem hch c hc
            exact ih p.1 p.2 (path ++ [item]) c hsol n hnc

theorem getActive_mem {book : RecipeBook} {item : String} {r : Recipe}
    (h : book.getActiveRecipe item = some r) : r ∈ book.recipes := by
  rw [RecipeBook.getActiveRecipe] at h
  cases hl : book.active_by_output.lookup item with
  | none => simp only [hl] at h; exact (Option.noConfusion h)
  | some rid =>
    simp only [hl] at h
    by_cases hr : rid = ""
    · rw [if_pos hr] at h; cases h
    · rw [if_neg hr] at h
      exact List.mem_of_find?_eq_some h

theorem primaryOutputAmount_pos {r : Recipe} {item : String} {a : ℚ}
    (hout : ∀ p ∈ r.outputs, 0 < p.2)
    (h : primaryOutputAmount r item = .ok a) : 0 < a := by
  rw [primaryOutputAmount] at h
  cases hl : r.outputs.lookup item with
  | some amt =>
    simp only [hl, Except.ok.injEq] at h
    subst h
    exact hout _ (lookup_mem hl)
  | none =>
    simp only [hl] at h
    cases ho : r.outputs with
    | nil => simp only [ho] at h; exact (Except.noConfusion h)
    | cons p rest =>
      simp only [ho, Except.ok.injEq] at h
      subst h
      exact hout p (ho ▸ List.mem_cons_self p rest)

theorem solve_rate_pos {book : RecipeBook} {im : List (String × String)} {dt : Tier}
    {ov : List (String × Tier)} (hpos : PositiveBook book) :
    ∀ fuel item rate path root,
      0 < rate →
      solve book im dt ov fuel item rate path = .ok root →
      ∀ n ∈ allNodes root, 0 < n.data.item_rate_per_s := by
  intro fuel
  induction fuel with
  | zero => intro item rate path root _ h; simp [solve] at h
  | succ fuel ih =>
    intro item rate path root hrate h n hn
    rw [solve] at h
    by_cases hcy : item ∈ path
    · rw [if_pos hcy] at h; cases h
    rw [if_neg hcy] at h
    cases hact : book.getActiveRecipe item with
    | none =>
      simp only [hact, Except.ok.injEq] at h
      subst h
      rw [rawNode, allNodes, allNodesL] at hn
      rcases List.mem_cons.mp hn with rfl | hn
      · simpa [PlanNode.data] using hrate
      · cases hn
    | some r =>
      simp only [hact] at h
      cases hout : primaryOutputAmount r item with
      | error e => simp only [hout] at h; exact (Except.noConfusion h)
      | ok out_amt =>
        simp only [hout] at h
        cases hch : mapME
            (fun p => solve book im dt ov fuel p.1 p.2 (path ++ [item]))
            (r.inputs.map (fun p => (p.1, rate / out_amt * p.2))) with
        | error e => simp only [hch] at h; exact (Except.noConfusion h)
        | ok children =>
          simp only [hch, Except.ok.injEq] at h
          subst h
          rw [allNodes] at hn
          rcases List.mem_cons.mp hn with rfl | hn
          · simpa [PlanNode.data] using hrate
          · obtain ⟨c, hc, hnc⟩ := mem_allNodesL hn
            obtain ⟨p, hpmem, hsol⟩ := mapME_ok_mem hch c hc
            obtain ⟨q, hq, rfl⟩ := List.mem_map.mp hpmem
            have hrmem := getActive_mem hact
            have hin : 0 < q.2 := (hpos r hrmem).1 q hq
            have hout_pos : 0 < out_amt :=
              primaryOutputAmount_pos (fun p hp => (hpos r hrmem).2 p hp) hout
            have hcrate : 0 < rate / out_amt * q.2 := by positivity
            exact ih q.1 (rate / out_amt * q.2) (path ++ [item]) c hcrate hsol n hnc

theorem walkStep_spec (agg : String → ℚ × ℚ) (d : NodeData) (c : List PlanNode) (k : String) :
    walkStep agg d k =
      ((agg k).1 + (contrib (.mk d c) k).1, (agg k).2 + (contrib (.mk d c) k).2) := by
  by_cases h1 : d.machine ≠ "RAW" ∧ 0 < d.machines_needed
  · by_cases h2 : k = summaryKey d
    · simp only [walkStep, contrib, PlanNode.data, if_pos h1, if_pos h2,
        if_pos (show ¬d.machine = "RAW" ∧ 0 < d.machines_needed ∧ summaryKey d = k from
          ⟨h1.1, h1.2, h2.symm⟩)]
    · simp only [walkStep, contrib, PlanNode.data, if_pos h1, if_neg h2,
        if_neg (show ¬(¬d.machine = "RAW" ∧ 0 < d.machines_needed ∧ summaryKey d = k) from
          fun hc => h2 hc.2.2.symm)]
      simp
  · simp only [walkStep, contrib, PlanNode.data, if_neg h1,
      if_neg (show ¬(¬d.machine = "RAW" ∧ 0 < d.machines_needed ∧ summaryKey d = k) from
        fun hc => h1 ⟨hc.1, hc.2.1⟩)]
    simp

theorem walkAggL_spec (l : List PlanNode)
    (IH : ∀ x ∈ l, ∀ (agg : String → ℚ × ℚ) (k : String),
      walkAgg agg x k =
        ((agg k).1 + ((allNodes x).map (fun m => (contrib m k).1)).sum,
         (agg k).2 + ((allNodes x).map (fun m => (contrib m k).2)).sum)) :
    ∀ (agg : String → ℚ × ℚ) (k : String),
      walkAggL agg l k =
        ((agg k).1 + ((allNodesL l).map (fun m => (contrib m k).1)).sum,
         (agg k).2 + ((allNodesL l).map (fun m => (contrib m k).2)).sum) := by
  induction l with
  | nil => intro agg k; rw [walkAggL, allNodesL]; simp
  | cons x xs ih =>
    intro agg k
    rw [walkAggL, allNodesL]
    rw [ih (fun y hy => IH y (List.mem_cons_of_mem _ hy))]
    rw [IH x (List.mem_cons_self _ _)]
    simp only [List.map_append, List.sum_append, Prod.mk.injEq]
    constructor <;> ring

theorem walkAgg_spec : ∀ (n : PlanNode) (agg : String → ℚ × ℚ) (k : String),
    walkAgg agg n k =
      ((agg k).1 + ((allNodes n).map (fun m => (contrib m k).1)).sum,
       (agg k).2 + ((allNodes n).map (fun m => (contrib m k).2)).sum) := by
  refine planNode_ind _ ?_
  intro d c IH agg k
  rw [walkAgg]
  rw [walkAggL_spec c IH]
  rw [walkStep_spec agg d c k]
  rw [allNodes]
  simp only [List.map_cons, List.sum_cons, Prod.mk.injEq]
  constructor <;> ring

theorem max_one_mul_tick_ge (z : ℤ) : TICK_S ≤ ((max 1 z : ℤ) : ℚ) * TICK_S := by
  have h3 : (1 : ℚ) ≤ ((max 1 z : ℤ) : ℚ) := by exact_mod_cast le_max_left 1 z
  calc TICK_S = 1 * TICK_S := (one_mul _).symm
  _ ≤ ((max 1 z : ℤ) : ℚ) * TICK_S :=
    mul_le_mul_of_nonneg_right h3 (by norm_num [TICK_S])

theorem computeOverclock_seconds_ge (t p : ℚ) (tier : Tier) :
    TICK_S ≤ (computeOverclock t p tier).seconds := by
  by_cases h1 : p ≤ 0
  · simp only [computeOverclock, if_pos h1]
    exact le_max_left _ _
  by_cases h2 : ((VOLTAGE_BY_TIER tier : ℚ) < p)
  · simp only [computeOverclock, if_neg h1, if_pos h2]
    exact max_one_mul_tick_ge _
  · simp only [computeOverclock, if_neg h1, if_neg h2]
    exact max_one_mul_tick_ge _

theorem ocLoop_id (bt : ℤ) (f : ℚ) (b : Bool) (n : ℕ) (t : ℤ) (ht : 1 ≤ t) :
    ocLoop bt f b n t = (n, t) := by
  cases n with
  | zero => rw [ocLoop]
  | succ n => rw [ocLoop, if_neg (by omega)]

theorem ceil_eval {q : ℚ} {z : ℤ} (h1 : (z : ℚ) - 1 < q) (h2 : q ≤ z) : ⌈q⌉ = z :=
  Int.ceil_eq_iff.mpr ⟨h1, h2⟩

theorem floor_eval {q : ℚ} {z : ℤ} (h1 : (z : ℚ) ≤ q) (h2 : q < z + 1) : ⌊q⌋ = z :=
  Int.floor_eq_iff.mpr ⟨h1, h2⟩

theorem log4floorQ_eq {q : ℚ} {k : ℕ} (h1 : (4 : ℚ) ^ k ≤ q) (h2 : q < 4 ^ (k + 1)) :
    log4floorQ q = k := by
  have hq1 : (1 : ℚ) ≤ 4 ^ k := by
    calc (1 : ℚ) = 4 ^ 0 := by norm_num
    _ ≤ 4 ^ k := pow_le_pow_right₀ (by norm_num) (Nat.zero_le k)
  have hq : (1 : ℚ) ≤ q := le_trans hq1 h1
  have ha := (log4floorQ_le_iff hq k).mp h1
  have hb : ¬(k + 1 ≤ log4floorQ q) :=
    fun hc => absurd ((log4floorQ_le_iff hq (k + 1)).mpr hc) (not_le.mpr h2)
  omega

theorem applyOC_exceeds {tier : Tier} {bt : ℤ} {p : ℚ}
    (h : (VOLTAGE_BY_TIER tier : ℚ) < p) :
    applyOC tier bt (some p) =
      .error "Recipe base EU/t exceeds machine tier voltage" := by
  simp only [applyOC, if_pos h]

theorem applyOC_ok {tier : Tier} {bt : ℤ} {p : ℚ} (hp : 0 < p)
    (hle : p ≤ (VOLTAGE_BY_TIER tier : ℚ)) :
    applyOC tier bt (some p) =
      .ok { ticks := if p ≤ 16 then
              max 1 ⌊(bt : ℚ) / (if 0 < log4floorQ ((VOLTAGE_BY_TIER tier : ℚ) / p) then
                (if p ≤ 16 then (2 : ℚ) else 14 / 5) ^
                  log4floorQ ((VOLTAGE_BY_TIER tier : ℚ) / p) else 1)⌋
            else
              max 1 ⌈(bt : ℚ) / (if 0 < log4floorQ ((VOLTAGE_BY_TIER tier : ℚ) / p) then
                (if p ≤ 16 then (2 : ℚ) else 14 / 5) ^
                  log4floorQ ((VOLTAGE_BY_TIER tier : ℚ) / p) else 1)⌉,
            seconds := ((if p ≤ 16 then
              max 1 ⌊(bt : ℚ) / (if 0 < log4floorQ ((VOLTAGE_BY_TIER tier : ℚ) / p) then
                (if p ≤ 16 then (2 : ℚ) else 14 / 5) ^
                  log4floorQ ((VOLTAGE_BY_TIER tier : ℚ) / p) else 1)⌋
            else
              max 1 ⌈(bt : ℚ) / (if 0 < log4floorQ ((VOLTAGE_BY_TIER tier : ℚ) / p) then
                (if p ≤ 16 then (2 : ℚ) else 14 / 5) ^
                  log4floorQ ((VOLTAGE_BY_TIER tier : ℚ) / p) else 1)⌉ : ℤ) : ℚ) * TICK_S,
            eut := p * 4 ^ log4floorQ ((VOLTAGE_BY_TIER tier : ℚ) / p),
            overclocks := log4floorQ ((VOLTAGE_BY_TIER tier : ℚ) / p) } := by
  simp only [applyOC, if_neg (not_lt.mpr hle), if_pos hp]
  rw [ocLoop_id]
  by_cases h16 : p ≤ 16
  · simp only [if_pos h16]
    exact le_max_left _ _
  · simp only [if_neg h16]
    exact le_max_left _ _

/-- C2 counterexample: at tier ULV (capacity 8), a recipe drawing 10 EU/t
resolves successfully — the core returns a node with effective power 10
and zero overclocks instead of failing with a voltage error. -/
theorem voltage_exceeded_not_error_cx :
    (solve exceedBook [] Tier.ULV [] 3 "A" 1 []).map
        (fun n => (n.data.effective_eut, n.data.overclocks)) =
      .ok (10, 0) ∧ (VOLTAGE_BY_TIER Tier.ULV : ℚ) < 10 := by
  constructor
  · have hoc : computeOverclock 1 10 Tier.ULV =
        { overclocks := 0, ticks := 20, seconds := 20 * TICK_S, eut := 10 } := by
      have hc : (⌈(1 : ℚ) / TICK_S⌉ : ℤ) = 20 :=
        ceil_eval (by norm_num [TICK_S]) (by norm_num [TICK_S])
      simp only [computeOverclock, if_neg (by norm_num : ¬(10 : ℚ) ≤ 0),
        if_pos (by norm_num [VOLTAGE_BY_TIER] : (VOLTAGE_BY_TIER Tier.ULV : ℚ) < 10), hc]
      norm_num [max_def]
    simp [solve, exceedBook, RecipeBook.getActiveRecipe, List.lookup, List.find?,
      primaryOutputAmount, tierForNode, effTriple, mapME, hoc, PlanNode.data, Except.map]
  · norm_num [VOLTAGE_BY_TIER]

/-- C2 (amended): when base power exceeds the tier capacity, the core
`compute_overclock` does not fail: it returns a zero-overclock result
whose power is the (over-capacity) base power, and resolution proceeds;
only the legacy `OverclockingRules.apply` raises the voltage error. -/
theorem voltage_exceeded_behavior (t p : ℚ) (bt : ℤ) (tier : Tier)
    (h : (VOLTAGE_BY_TIER tier : ℚ) < p) :
    computeOverclock t p tier =
      { overclocks := 0, ticks := max 1 ⌈t / TICK_S⌉,
        seconds := ((max 1 ⌈t / TICK_S⌉ : ℤ) : ℚ) * TICK_S, eut := p } ∧
    applyOC tier bt (some p) =
      .error "Recipe base EU/t exceeds machine tier voltage" := by
  have h8 : (8 : ℚ) ≤ (VOLTAGE_BY_TIER tier : ℚ) := by
    cases tier <;> norm_num [VOLTAGE_BY_TIER]
  have hp0 : ¬p ≤ 0 := by push_neg; linarith
  exact ⟨by simp only [computeOverclock, if_neg hp0, if_pos h], applyOC_exceeds h⟩

/-- Witness for the amended C2 at base power 10, tier ULV. -/
theorem voltage_exceeded_behavior_witness :
    computeOverclock 1 10 Tier.ULV =
      { overclocks := 0, ticks := max 1 ⌈(1 : ℚ) / TICK_S⌉,
        seconds := ((max 1 ⌈(1 : ℚ) / TICK_S⌉ : ℤ) : ℚ) * TICK_S, eut := 10 } ∧
    applyOC Tier.ULV 7 (some 10) =
      .error "Recipe base EU/t exceeds machine tier voltage" :=
  voltage_exceeded_behavior 1 10 7 Tier.ULV (by norm_num [VOLTAGE_BY_TIER])

/-- C3 counterexample: at base duration 1/4 s (5 ticks) and base power 8
(≤ 16) on LV, the core rounds the shrunk quantum count 5/2 up to 3 ticks,
while the claim's floor regime for powers ≤ 16 predicts 2 ticks. -/
theorem rounding_regime_cx :
    (computeOverclock (1 / 4) 8 Tier.LV).ticks = 3 ∧
    (max 1 ⌊((max 1 (round ((1 / 4 : ℚ) / TICK_S)) : ℤ) : ℚ) /
      (2 : ℚ) ^ (computeOverclock (1 / 4) 8 Tier.LV).overclocks⌋ : ℤ) = 2 := by
  have hlog : log4floorQ ((VOLTAGE_BY_TIER Tier.LV : ℚ) / 8) = 1 := by
    have hm : ((VOLTAGE_BY_TIER Tier.LV : ℚ) / 8) = 4 := by norm_num [VOLTAGE_BY_TIER]
    rw [hm]
    exact log4floorQ_eq (by norm_num) (by norm_num)
  have hb : (⌈(1 / 4 : ℚ) / TICK_S⌉ : ℤ) = 5 :=
    ceil_eval (by norm_num [TICK_S]) (by norm_num [TICK_S])
  have hm5 : (max 1 (5 : ℤ)) = 5 := by norm_num [max_def]
  have h52 : (⌈((5 : ℤ) : ℚ) / 2 ^ 1⌉ : ℤ) = 3 :=
    ceil_eval (by norm_num) (by norm_num)
  have hf52 : (⌊((5 : ℤ) : ℚ) / 2 ^ 1⌋ : ℤ) = 2 :=
    floor_eval (by norm_num) (by norm_num)
  have hrd : round ((1 / 4 : ℚ) / TICK_S) = 5 := by
    rw [show (1 / 4 : ℚ) / TICK_S = ((5 : ℤ) : ℚ) by norm_num [TICK_S]]
    exact round_intCast 5
  rw [computeOverclock_spec (by norm_num) (by norm_num [VOLTAGE_BY_TIER])]
  simp only [hlog, hb, hm5, hrd]
  norm_num [h52, hf52, max_def]
  exact ceil_eval (by norm_num) (by norm_num)

/-- C3 (amended): the core converts the base duration to quanta by
ceiling (min 1) and always rounds the shrunk count up (min 1 quantum);
the floor-when-power-≤-16 regime exists only in the legacy
`OverclockingRules.apply`.  Both use factor 2.0 when power ≤ 16 and 2.8
otherwise. -/
theorem duration_rounding_behavior (t p : ℚ) (bt : ℤ) (tier : Tier) (hp : 0 < p)
    (hle : p ≤ (VOLTAGE_BY_TIER tier : ℚ)) :
    (computeOverclock t p tier).ticks =
      max 1 ⌈((max 1 ⌈t / TICK_S⌉ : ℤ) : ℚ) /
        (if 0 < (computeOverclock t p tier).overclocks then
          (if p ≤ 16 then (2 : ℚ) else 14 / 5) ^ (computeOverclock t p tier).overclocks
        else 1)⌉ ∧
    (applyOC tier bt (some p)).map OverclockResult.ticks =
      .ok (if p ≤ 16 then
          max 1 ⌊(bt : ℚ) / (if 0 < log4floorQ ((VOLTAGE_BY_TIER tier : ℚ) / p) then
            (if p ≤ 16 then (2 : ℚ) else 14 / 5) ^
              log4floorQ ((VOLTAGE_BY_TIER tier : ℚ) / p) else 1)⌋
        else
          max 1 ⌈(bt : ℚ) / (if 0 < log4floorQ ((VOLTAGE_BY_TIER tier : ℚ) / p) then
            (if p ≤ 16 then (2 : ℚ) else 14 / 5) ^
              log4floorQ ((VOLTAGE_BY_TIER tier : ℚ) / p) else 1)⌉) := by
  constructor
  · rw [computeOverclock_spec hp hle]
  · rw [applyOC_ok hp hle]
    rfl

/-- Witness for the amended C3 at base power 8, 5 base ticks, tier LV. -/
theorem duration_rounding_behavior_witness :
    (computeOverclock (1 / 4) 8 Tier.LV).ticks =
      max 1 ⌈((max 1 ⌈(1 / 4 : ℚ) / TICK_S⌉ : ℤ) : ℚ) /
        (if 0 < (computeOverclock (1 / 4) 8 Tier.LV).overclocks then
          (if (8 : ℚ) ≤ 16 then (2 : ℚ) else 14 / 5) ^
            (computeOverclock (1 / 4) 8 Tier.LV).overclocks
        else 1)⌉ ∧
    (applyOC Tier.LV 5 (some 8)).map OverclockResult.ticks =
      .ok (if (8 : ℚ) ≤ 16 then
          max 1 ⌊((5 : ℤ) : ℚ) / (if 0 < log4floorQ ((VOLTAGE_BY_TIER Tier.LV : ℚ) / 8) then
            (if (8 : ℚ) ≤ 16 then (2 : ℚ) else 14 / 5) ^
              log4floorQ ((VOLTAGE_BY_TIER Tier.LV : ℚ) / 8) else 1)⌋
        else
          max 1 ⌈((5 : ℤ) : ℚ) / (if 0 < log4floorQ ((VOLTAGE_BY_TIER Tier.LV : ℚ) / 8) then
            (if (8 : ℚ) ≤ 16 then (2 : ℚ) else 14 / 5) ^
              log4floorQ ((VOLTAGE_BY_TIER Tier.LV : ℚ) / 8) else 1)⌉) :=
  duration_rounding_behavior (1 / 4) 8 5 Tier.LV (by norm_num)
    (by norm_num [VOLTAGE_BY_TIER])

/-- C4: every non-raw node's machine count is the ceiling of required
operations per second (rate divided by the primary output quantity)
divided by per-machine operations per second; the exposed per-machine
throughput is `1 / max(effective duration, 1e-12)`, which equals
`1 / effective duration` whenever the duration is at least `1e-12`; and
the count is a positive integer for positive rates in a
positive-quantity catalog. -/
theorem machines_needed_formula {book : RecipeBook} {im : List (String × String)}
    {dt : Tier} {ov : List (String × Tier)} {fuel : ℕ} {item : String} {rate : ℚ}
    {path : List String} {root : PlanNode}
    (hpos : PositiveBook book) (hrate : 0 < rate)
    (hsolve : solve book im dt ov fuel item rate path = .ok root) :
    ∀ n ∈ allNodes root, ∀ r, book.getActiveRecipe n.data.item = some r →
      ∃ out_amt, primaryOutputAmount r n.data.item = .ok out_amt ∧ 0 < out_amt ∧
        n.data.machines_needed =
          ⌈(n.data.item_rate_per_s / out_amt) / n.data.per_machine_ops_per_s⌉ ∧
        n.data.per_machine_ops_per_s = 1 / max n.data.effective_time_s opsEps ∧
        (opsEps ≤ n.data.effective_time_s →
          n.data.per_machine_ops_per_s = 1 / n.data.effective_time_s) ∧
        1 ≤ n.data.machines_needed := by
  intro n hn r hr
  have hok := solve_mem_ok fuel item rate path root hsolve n hn
  rcases hok with ⟨hnone, _⟩ | ⟨r', out_amt, hr', hout, _, _, _, _, _, _, hops, hmach, _⟩
  · rw [hnone] at hr; cases hr
  · have hrr : r' = r := by
      rw [hr'] at hr
      exact Option.some.inj hr
    subst hrr
    have hrmem := getActive_mem hr'
    have hout_pos : 0 < out_amt :=
      primaryOutputAmount_pos (fun p hp => (hpos r' hrmem).2 p hp) hout
    have hnrate : 0 < n.data.item_rate_per_s :=
      solve_rate_pos hpos fuel item rate path root hrate hsolve n hn
    refine ⟨out_amt, hout, hout_pos, hmach, hops, ?_, ?_⟩
    · intro heps
      rw [hops, max_eq_left heps]
    · have hmx : (0 : ℚ) < max n.data.effective_time_s opsEps :=
        lt_max_of_lt_right (by norm_num [opsEps])
      have hops_pos : 0 < n.data.per_machine_ops_per_s := by
        rw [hops]; positivity
      have harg : 0 < (n.data.item_rate_per_s / out_amt) / n.data.per_machine_ops_per_s := by
        positivity
      have hcp := Int.ceil_pos.mpr harg
      rw [hmach]
      omega

/-- Witness for C4 on `plainBook` at rate 1: the single node needs one
machine and satisfies the ceiling formula. -/
theorem machines_needed_formula_witness :
    ∃ out_amt,
      primaryOutputAmount ⟨"rA", "Mixer", 1, [], [("A", 1)], none, none, true⟩
          nodeA.data.item = .ok out_amt ∧ 0 < out_amt ∧
      nodeA.data.machines_needed =
        ⌈(nodeA.data.item_rate_per_s / out_amt) / nodeA.data.per_machine_ops_per_s⌉ ∧
      nodeA.data.per_machine_ops_per_s = 1 / max nodeA.data.effective_time_s opsEps ∧
      (opsEps ≤ nodeA.data.effective_time_s →
        nodeA.data.per_machine_ops_per_s = 1 / nodeA.data.effective_time_s) ∧
      1 ≤ nodeA.data.machines_needed := by
  have hposP : PositiveBook plainBook := by
    intro r hr
    simp only [plainBook, List.mem_singleton] at hr
    subst hr
    constructor
    · intro p hp; simp at hp
    · intro p hp
      simp only [List.mem_singleton] at hp
      subst hp
      norm_num
  have hmax : max (1 : ℚ) opsEps = 1 := max_eq_left (by norm_num [opsEps])
  have hsolve : solve plainBook [] Tier.LV [] 2 "A" 1 [] = .ok nodeA := by
    simp [solve, plainBook, RecipeBook.getActiveRecipe, List.lookup, List.find?,
      primaryOutputAmount, tierForNode, effTriple, mapME, nodeA, hmax]
  exact @machines_needed_formula plainBook [] Tier.LV [] 2 "A" 1 [] nodeA
    hposP (by norm_num) hsolve nodeA (mem_allNodes_self nodeA)
    ⟨"rA", "Mixer", 1, [], [("A", 1)], none, none, true⟩
    (by simp [plainBook, RecipeBook.getActiveRecipe, List.lookup, List.find?,
      nodeA, PlanNode.data])

/-- C5 counterexample: the legacy resolver raises a spurious cycle error
on the acyclic diamond — the raw item `W`, reached through two unrelated
sibling branches, is never removed from the shared `visited` set by the
raw-input early return, so its second occurrence is reported as a cycle;
the error names only the item, not a path. -/
theorem sibling_raw_cycle_cx :
    legacyDiamondBook.getActiveFor "W" = none ∧
    solveLegacy legacyDiamondBook 5 "X" 1 Tier.LV [] =
      .error ("Cycle detected while resolving " ++ "W") := by
  constructor
  · simp [legacyDiamondBook, LegacyBook.getActiveFor, List.lookup]
  · simp [solveLegacy, legacyDiamondBook, LegacyBook.getActiveFor, List.lookup,
      List.find?, chooseOutputAmount, childFold, rawLegacyNode, List.erase]

/-- C5 (amended): the core resolver detects cycles exactly along the
ancestor chain: any item already on the path yields a cycle error naming
the full offending path, a recipe consuming its own item fails, the
acyclic diamond with `W` in two unrelated sibling branches resolves
without error, and the transitive `A -> B -> A` catalog fails with that
path.  The legacy resolver also rejects an item already in its visited
set — but its error names only the item, and its raw-input early return
leaves the item in the shared visited set, which is what makes repeated
raw siblings spuriously fail there. -/
theorem cycle_detection_ancestor_only :
    (∀ (book : RecipeBook) (im : List (String × String)) (dt : Tier)
        (ov : List (String × Tier)) (fuel : ℕ) (item : String) (rate : ℚ)
        (path : List String), item ∈ path →
        solve book im dt ov (fuel + 1) item rate path =
          .error (.cycle (path ++ [item]))) ∧
    (∀ (book : RecipeBook) (im : List (String × String)) (dt : Tier)
        (ov : List (String × Tier)) (fuel : ℕ) (item : String) (rate : ℚ)
        (path : List String) (r : Recipe) (q amt : ℚ)
        (rest : List (String × ℚ)), item ∉ path →
        book.getActiveRecipe item = some r → r.inputs = (item, q) :: rest →
        primaryOutputAmount r item = .ok amt →
        solve book im dt ov (fuel + 1 + 1) item rate path =
          .error (.cycle ((path ++ [item]) ++ [item]))) ∧
    isOkE (solve diamondBook [] Tier.LV [] 5 "X" 1 []) = true ∧
    solve loopBook [] Tier.LV [] 5 "A" 1 [] = .error (.cycle ["A", "B", "A"]) ∧
    (∀ (book : LegacyBook) (fuel : ℕ) (item : String) (rate : ℚ) (tier : Tier)
        (visited : List String), item ∈ visited →
        solveLegacy book (fuel + 1) item rate tier visited =
          .error ("Cycle detected while resolving " ++ item)) ∧
    (∀ (book : LegacyBook) (fuel : ℕ) (item : String) (rate : ℚ) (tier : Tier)
        (visited : List String), item ∉ visited →
        book.getActiveFor item = none →
        solveLegacy book (fuel + 1) item rate tier visited =
          .ok (rawLegacyNode tier item rate, item :: visited)) := by
  refine ⟨?_, ?_, ?_, ?_, ?_, ?_⟩
  · intro book im dt ov fuel item rate path h
    rw [solve, if_pos h]
  · intro book im dt ov fuel item rate path r q amt rest hpath hact hin hout
    have hchild : solve book im dt ov (fuel + 1) item (rate / amt * q)
        (path ++ [item]) = .error (.cycle ((path ++ [item]) ++ [item])) := by
      rw [solve, if_pos (List.mem_append.mpr (Or.inr (List.mem_singleton.mpr rfl)))]
    rw [solve, if_neg hpath]
    simp only [hact, hout, hin, List.map_cons, mapME, hchild]
  · simp [solve, diamondBook, RecipeBook.getActiveRecipe, List.lookup, List.find?,
      primaryOutputAmount, tierForNode, effTriple, mapME, rawNode, isOkE]
  · simp [solve, loopBook, RecipeBook.getActiveRecipe, List.lookup, List.find?,
      primaryOutputAmount, tierForNode, effTriple, mapME]
  · intro book fuel item rate tier visited h
    rw [solveLegacy, if_pos h]
  · intro book fuel item rate tier visited h hnone
    rw [solveLegacy, if_neg h]
    simp only [hnone]

/-- Witness for C5's ancestor-chain clause: resolving `A` when `A` is
already on the path fails with the path `A -> A`. -/
theorem cycle_detection_ancestor_only_witness :
    solve emptyBook [] Tier.LV [] (0 + 1) "A" 1 ["A"] =
      .error (.cycle (["A"] ++ ["A"])) :=
  cycle_detection_ancestor_only.1 emptyBook [] Tier.LV [] 0 "A" 1 ["A"] (by simp)

/-- C6 counterexample: the raw-input node for an item with no recipe has
`effective_time_s = 0`, strictly below the claimed one-tick floor. -/
theorem effective_time_floor_cx :
    (solve emptyBook [] Tier.LV [] 1 "x" 1 []).map
        (fun n => n.data.effective_time_s) = .ok 0 ∧
    ¬TICK_S ≤ (0 : ℚ) := by
  constructor
  · simp [solve, emptyBook, RecipeBook.getActiveRecipe, List.lookup, rawNode,
      PlanNode.data, Except.map]
  · norm_num [TICK_S]

/-- C6 (amended): every `compute_overclock` result lasts at least one
tick, so every resolved node whose duration came from the Overclock
Calculator (recipe has `base_eut` and `gt_recipe`) has
`effective_time_s ≥ 1/20`; raw nodes carry 0 and non-overclocked recipe
nodes carry the unquantized base duration. -/
theorem effective_time_floor_oc_nodes :
    (∀ t p : ℚ, ∀ tier : Tier, TICK_S ≤ (computeOverclock t p tier).seconds) ∧
    (∀ (book : RecipeBook) (im : List (String × String)) (dt : Tier)
        (ov : List (String × Tier)) (fuel : ℕ) (item : String) (rate : ℚ)
        (path : List String) (root : PlanNode),
      solve book im dt ov fuel item rate path = .ok root →
      ∀ n ∈ allNodes root, ∀ r be, book.getActiveRecipe n.data.item = some r →
        r.base_eut = some be → r.gt_recipe = true →
        TICK_S ≤ n.data.effective_time_s) := by
  refine ⟨fun t p tier => computeOverclock_seconds_ge t p tier, ?_⟩
  intro book im dt ov fuel item rate path root hsolve n hn r be hr hbe hgt
  have hok := solve_mem_ok fuel item rate path root hsolve n hn
  rcases hok with ⟨hnone, _⟩ | ⟨r', _, hr', _, _, _, _, heff, _, _, _, _, _⟩
  · rw [hnone] at hr; cases hr
  · have hrr : r' = r := by
      rw [hr'] at hr
      exact Option.some.inj hr
    subst hrr
    rw [heff]
    simp only [effTriple, hbe, hgt, if_pos]
    exact computeOverclock_seconds_ge _ _ _

/-- Witness for the amended C6: the overclocked `ocBook` node keeps an
effective duration of half a second, above the tick floor. -/
theorem effective_time_floor_oc_nodes_witness :
    TICK_S ≤ nodeOC.data.effective_time_s := by
  have hoc : computeOverclock 1 8 Tier.LV =
      { overclocks := 1, ticks := 10, seconds := 1 / 2, eut := 32 } := by
    have hlog : log4floorQ ((VOLTAGE_BY_TIER Tier.LV : ℚ) / 8) = 1 := by
      rw [show ((VOLTAGE_BY_TIER Tier.LV : ℚ) / 8) = 4 by norm_num [VOLTAGE_BY_TIER]]
      exact log4floorQ_eq (by norm_num) (by norm_num)
    have hb : (⌈(1 : ℚ) / TICK_S⌉ : ℤ) = 20 :=
      ceil_eval (by norm_num [TICK_S]) (by norm_num [TICK_S])
    rw [computeOverclock_spec (by norm_num) (by norm_num [VOLTAGE_BY_TIER])]
    simp only [hlog, hb]
    norm_num [max_def, TICK_S]
  have hmax : max (1 / 2 : ℚ) opsEps = 1 / 2 := max_eq_left (by norm_num [opsEps])
  have hc1 : (⌈(1 : ℚ) / 2⌉ : ℤ) = 1 := ceil_eval (by norm_num) (by norm_num)
  have hsolve : solve ocBook [] Tier.LV [] 2 "A" 1 [] = .ok nodeOC := by
    simp [solve, ocBook, RecipeBook.getActiveRecipe, List.lookup, List.find?,
      primaryOutputAmount, tierForNode, effTriple, mapME, nodeOC, hoc, hmax, hc1]
    rw [show ((2⁻¹ : ℚ) ⊔ opsEps) = 2⁻¹ from max_eq_left (by norm_num [opsEps])]
    exact ⟨ceil_eval (by norm_num) (by norm_num), by norm_num⟩
  exact effective_time_floor_oc_nodes.2 ocBook [] Tier.LV [] 2 "A" 1 [] nodeOC hsolve
    nodeOC (mem_allNodes_self nodeOC)
    ⟨"rA", "Electrolyzer", 1, [], [("A", 1)], some 8, none, true⟩ 8
    (by simp [ocBook, RecipeBook.getActiveRecipe, List.lookup, List.find?,
      nodeOC, PlanNode.data]) rfl rfl

/-- C7: a node's tier starts from the per-item override (else the default
tier) and is raised, by capacity comparison and never lowered, to the
recipe's declared minimum voltage when present; the node records that
tier and computes its duration, power and overclocks from it. -/
theorem tier_selection_spec :
    (∀ (r : Recipe) (dt : Tier) (ov : List (String × Tier)) (item : String),
      (r.base_voltage = none →
        tierForNode r dt ov item = ((ov.lookup item).getD dt)) ∧
      VOLTAGE_BY_TIER ((ov.lookup item).getD dt) ≤
        VOLTAGE_BY_TIER (tierForNode r dt ov item) ∧
      (∀ bv, r.base_voltage = some bv →
        VOLTAGE_BY_TIER bv ≤ VOLTAGE_BY_TIER (tierForNode r dt ov item) ∧
        (tierForNode r dt ov item = ((ov.lookup item).getD dt) ∨
          tierForNode r dt ov item = bv))) ∧
    (∀ (book : RecipeBook) (im : List (String × String)) (dt : Tier)
        (ov : List (String × Tier)) (fuel : ℕ) (item : String) (rate : ℚ)
        (path : List String) (root : PlanNode),
      solve book im dt ov fuel item rate path = .ok root →
      ∀ n ∈ allNodes root, ∀ r, book.getActiveRecipe n.data.item = some r →
        n.data.machine_tier = tierForNode r dt ov n.data.item ∧
        n.data.effective_time_s = (effTriple r n.data.machine_tier).1 ∧
        n.data.effective_eut = (effTriple r n.data.machine_tier).2.1 ∧
        n.data.overclocks = (effTriple r n.data.machine_tier).2.2) := by
  constructor
  · intro r dt ov item
    refine ⟨?_, ?_, ?_⟩
    · intro hb
      simp only [tierForNode, hb]
    · cases hb : r.base_voltage with
      | none => simp only [tierForNode, hb]; exact le_rfl
      | some bv =>
        simp only [tierForNode, hb]
        by_cases hlt : VOLTAGE_BY_TIER ((ov.lookup item).getD dt) < VOLTAGE_BY_TIER bv
        · rw [if_pos hlt]; exact le_of_lt hlt
        · rw [if_neg hlt]
    · intro bv hb
      simp only [tierForNode, hb]
      by_cases hlt : VOLTAGE_BY_TIER ((ov.lookup item).getD dt) < VOLTAGE_BY_TIER bv
      · rw [if_pos hlt]; exact ⟨le_rfl, Or.inr rfl⟩
      · rw [if_neg hlt]; exact ⟨not_lt.mp hlt, Or.inl rfl⟩
  · intro book im dt ov fuel item rate path root hsolve n hn r hr
    have hok := solve_mem_ok fuel item rate path root hsolve n hn
    rcases hok with ⟨hnone, _⟩ | ⟨r', _, hr', _, _, _, htier, heff, heut, hoc, _, _, _⟩
    · rw [hnone] at hr; cases hr
    · have hrr : r' = r := by
        rw [hr'] at hr
        exact Option.some.inj hr
      subst hrr
      exact ⟨htier, heff, heut, hoc⟩

/-- Witness for C7: `voltBook`'s recipe declares minimum voltage HV, so
the node resolved at default tier LV records tier HV and computes its
fields from it. -/
theorem tier_selection_spec_witness :
    nodeVolt.data.machine_tier =
      tierForNode ⟨"rA", "Mixer", 1, [], [("A", 1)], none, some .HV, true⟩
        Tier.LV [] nodeVolt.data.item ∧
    nodeVolt.data.effective_time_s =
      (effTriple ⟨"rA", "Mixer", 1, [], [("A", 1)], none, some .HV, true⟩
        nodeVolt.data.machine_tier).1 ∧
    nodeVolt.data.effective_eut =
      (effTriple ⟨"rA", "Mixer", 1, [], [("A", 1)], none, some .HV, true⟩
        nodeVolt.data.machine_tier).2.1 ∧
    nodeVolt.data.overclocks =
      (effTriple ⟨"rA", "Mixer", 1, [], [("A", 1)], none, some .HV, true⟩
        nodeVolt.data.machine_tier).2.2 := by
  have hmax : max (1 : ℚ) opsEps = 1 := max_eq_left (by norm_num [opsEps])
  have hsolve : solve voltBook [] Tier.LV [] 2 "A" 1 [] = .ok nodeVolt := by
    simp [solve, voltBook, RecipeBook.getActiveRecipe, List.lookup, List.find?,
      primaryOutputAmount, tierForNode, effTriple, mapME, nodeVolt, hmax,
      VOLTAGE_BY_TIER]
  exact tier_selection_spec.2 voltBook [] Tier.LV [] 2 "A" 1 [] nodeVolt hsolve
    nodeVolt (mem_allNodes_self nodeVolt)
    ⟨"rA", "Mixer", 1, [], [("A", 1)], none, some .HV, true⟩
    (by simp [voltBook, RecipeBook.getActiveRecipe, List.lookup, List.find?,
      nodeVolt, PlanNode.data])

/-- C8: the summary equals, per key, the sum over every node occurrence
of the whole tree (no deduplication of repeated subtrees) of
`machines_needed` and `machines_needed × effective_eut` for non-raw nodes
with positive machine count under the `machine [tier]` key, with the
machine total ceiling-rounded exactly once, after the accumulation. -/
theorem summary_aggregation_spec (root : PlanNode) (k : String) :
    summaryOf root k =
      (⌈((allNodes root).map (fun m => (contrib m k).1)).sum⌉,
       ((allNodes root).map (fun m => (contrib m k).2)).sum) := by
  rw [summaryOf, walkAgg_spec]
  simp

/-- C9 counterexample: `fallbackBook`'s active recipe for `A` lists only
`B` among its outputs, yet the core resolver succeeds, silently
substituting the first output quantity 2. -/
theorem missing_output_fallback_cx :
    primaryOutputAmount ⟨"rA", "Mixer", 1, [], [("B", 2)], none, none, true⟩ "A" =
      .ok 2 ∧
    ([("B", (2 : ℚ))]).lookup "A" = none ∧
    isOkE (solve fallbackBook [] Tier.LV [] 2 "A" 1 []) = true := by
  refine ⟨?_, ?_, ?_⟩
  · simp [primaryOutputAmount, List.lookup]
  · simp [List.lookup]
  · simp [solve, fallbackBook, RecipeBook.getActiveRecipe, List.lookup, List.find?,
      primaryOutputAmount, tierForNode, effTriple, mapME, isOkE]

/-- C9 (amended): when the item is absent from its recipe's outputs the
core resolver falls back to the first listed output quantity and errors
only when the output map is empty; the legacy resolver is the one that
reports the missing output. -/
theorem missing_output_behavior :
    (∀ (r : Recipe) (item : String) (o : String × ℚ) (rest : List (String × ℚ)),
      r.outputs.lookup item = none → r.outputs = o :: rest →
      primaryOutputAmount r item = .ok o.2) ∧
    (∀ (r : Recipe) (item : String), r.outputs = [] →
      primaryOutputAmount r item = .error (.noOutputs r.id)) ∧
    (∀ (lr : LegacyRecipe) (item : String), lr.outputs.lookup item = none →
      chooseOutputAmount lr item = .error "Recipe does not output item") := by
  refine ⟨?_, ?_, ?_⟩
  · intro r item o rest hl ho
    simp only [primaryOutputAmount]
    rw [hl]
    simp only [ho]
  · intro r item ho
    have hl : r.outputs.lookup item = none := by rw [ho]; rfl
    simp only [primaryOutputAmount]
    rw [hl]
    simp only [ho]
  · intro lr item hl
    simp only [chooseOutputAmount, hl]

/-- Witness for the amended C9: the core falls back to `B`'s quantity for
item `A`, while the legacy resolver rejects the same recipe. -/
theorem missing_output_behavior_witness :
    primaryOutputAmount ⟨"rA", "Mixer", 1, [], [("B", 2)], none, none, true⟩ "A" =
      .ok (("B", (2 : ℚ))).2 ∧
    chooseOutputAmount legacyB "A" = .error "Recipe does not output item" :=
  ⟨missing_output_behavior.1 ⟨"rA", "Mixer", 1, [], [("B", 2)], none, none, true⟩
      "A" ("B", 2) [] (by simp [List.lookup]) rfl,
   missing_output_behavior.2.2 legacyB "A" (by simp [legacyB, List.lookup])⟩

/-- C10: an item with no active recipe resolves to a raw node carrying
the default tier, even when the per-item tier overrides contain an entry
for that item — overrides are ignored on raw nodes. -/
theorem raw_node_ignores_overrides (book : RecipeBook) (im : List (String × String))
    (dt : Tier) (ov : List (String × Tier)) (fuel : ℕ) (item : String) (rate : ℚ)
    (path : List String) (hnone : book.getActiveRecipe item = none)
    (hpath : item ∉ path) :
    solve book im dt ov (fuel + 1) item rate path = .ok (rawNode im dt item rate) ∧
    (rawNode im dt item rate).data.machine_tier = dt := by
  constructor
  · rw [solve, if_neg hpath]
    simp only [hnone]
  · rfl

/-- Witness for C10: overrides assign `x` to HV, yet its raw node keeps
the default tier LV. -/
theorem raw_node_ignores_overrides_witness :
    solve emptyBook [] Tier.LV [("x", Tier.HV)] (0 + 1) "x" 1 [] =
      .ok (rawNode [] Tier.LV "x" 1) ∧
    (rawNode [] Tier.LV "x" 1).data.machine_tier = Tier.LV :=
  raw_node_ignores_overrides emptyBook [] Tier.LV [("x", Tier.HV)] 0 "x" 1 []
    (by simp [emptyBook, RecipeBook.getActiveRecipe, List.lookup]) (by simp)
